import Mathlib

/-!
Shallow embedding of the SNS backend in `src/python/main.py`.

The service stores three SQLite tables (`posts`, `comments`, `likes`,
created by `init_db`) and exposes CRUD handlers over them.  We model a
database state as lists of rows together with a fresh-id counter, and
each handler as a pure function from a state and its request parameters
to a result (`Except Err _`, where an `HTTPException` becomes `.error`)
paired with the successor state.  Raising an `HTTPException` before the
transaction commits leaves the database unchanged, so every error branch
returns the input state.

Modelling choices:
* `uuid.uuid4()` draws a fresh identifier; it is modelled as reading the
  counter `DB.nextId` (and bumping it on success), so identifiers are `Nat`.
* `now_iso()` produces a timestamp string; handlers take it as the
  explicit argument `now`.
* a request body `dict` field accessed via `body.get(k)` is modelled as
  `Option String`: `none` for a missing key or JSON null, `some s`
  otherwise; Python truthiness of the field is `falsy`.
* the counters `likes`/`comments` are SQLite INTEGER columns, modelled
  as `Int` (the schema does not constrain them to be non-negative).
* the `aiosqlite.IntegrityError` raised by inserting a duplicate
  `(postId, username)` primary key in `like_post` is modelled by testing
  for the key before the insert; the `except ... pass` branch returns
  the unchanged state, as nothing was committed.
-/

namespace SnsApi

/-- A row of the `posts` table (see `init_db`). -/
structure Post where
  id : Nat
  username : String
  content : String
  createdAt : String
  updatedAt : String
  likes : Int
  comments : Int
  deriving DecidableEq

/-- A row of the `comments` table (see `init_db`). -/
structure Comment where
  id : Nat
  postId : Nat
  username : String
  content : String
  createdAt : String
  updatedAt : String
  deriving DecidableEq

/-- A row of the `likes` table: composite primary key `(postId, username)`. -/
structure LikeEdge where
  postId : Nat
  username : String
  deriving DecidableEq

/-- The whole store plus the fresh-id counter modelling `uuid.uuid4()`. -/
structure DB where
  posts : List Post
  comments : List Comment
  likes : List LikeEdge
  nextId : Nat
  deriving DecidableEq

/-- The empty store produced by `init_db` on a fresh database file. -/
def initDB : DB := ⟨[], [], [], 0⟩

/-- The two `HTTPException` classes the handlers raise: 400 "Invalid input"
and 404 "... not found". -/
inductive Err where
  | invalidInput
  | notFound
  deriving DecidableEq

/-- Python truthiness test `not body.get(key)` on a request body field:
true for a missing key, JSON null, or the empty string. -/
def falsy : Option String → Bool
  | none => true
  | some s => s == ""

/-- The post dict built by `create_post` before insertion. -/
def newPost (db : DB) (username content : Option String) (now : String) : Post :=
  { id := db.nextId, username := username.getD "", content := content.getD "",
    createdAt := now, updatedAt := now, likes := 0, comments := 0 }

/-- Handler `create_post` (POST /posts). -/
def create_post (db : DB) (username content : Option String) (now : String) :
    Except Err Post × DB :=
  if falsy username || falsy content then (.error .invalidInput, db)
  else
    (.ok (newPost db username content now),
     { db with posts := newPost db username content now :: db.posts,
               nextId := db.nextId + 1 })

/-- Handler `get_post` (GET /posts/\x7bpostId\x7d). -/
def get_post (db : DB) (postId : Nat) : Except Err Post × DB :=
  match db.posts.find? (fun p => p.id == postId) with
  | none => (.error .notFound, db)
  | some p => (.ok p, db)

/-- Handler `update_post` (PATCH /posts/\x7bpostId\x7d).  After the UPDATE the
code re-SELECTs the row and returns it; the re-SELECT is `find?` on the
updated table. -/
def update_post (db : DB) (postId : Nat) (username content : Option String)
    (now : String) : Except Err (Option Post) × DB :=
  if falsy username || falsy content then (.error .invalidInput, db)
  else
    match db.posts.find? (fun p => p.id == postId) with
    | none => (.error .notFound, db)
    | some _ =>
      (.ok ((db.posts.map (fun p =>
          if p.id = postId then
            { p with username := username.getD "", content := content.getD "",
                     updatedAt := now }
          else p)).find? (fun p => p.id == postId)),
       { db with posts := db.posts.map (fun p =>
          if p.id = postId then
            { p with username := username.getD "", content := content.getD "",
                     updatedAt := now }
          else p) })

/-- Handler `delete_post` (DELETE /posts/\x7bpostId\x7d): deletes the post row
and every comment and like row with that `postId`. -/
def delete_post (db : DB) (postId : Nat) : Except Err Unit × DB :=
  match db.posts.find? (fun p => p.id == postId) with
  | none => (.error .notFound, db)
  | some _ =>
    (.ok (), { db with
      posts := db.posts.filter (fun p => !(p.id == postId)),
      comments := db.comments.filter (fun c => !(c.postId == postId)),
      likes := db.likes.filter (fun e => !(e.postId == postId)) })

/-- Handler `list_comments` (GET /posts/\x7bpostId\x7d/comments). -/
def list_comments (db : DB) (postId : Nat) : Except Err (List Comment) × DB :=
  match db.posts.find? (fun p => p.id == postId) with
  | none => (.error .notFound, db)
  | some _ => (.ok (db.comments.filter (fun c => c.postId == postId)), db)

/-- The comment dict built by `create_comment` before insertion. -/
def newComment (db : DB) (postId : Nat) (username content : Option String)
    (now : String) : Comment :=
  { id := db.nextId, postId := postId, username := username.getD "",
    content := content.getD "", createdAt := now, updatedAt := now }

/-- Handler `create_comment` (POST /posts/\x7bpostId\x7d/comments): validates,
checks the post exists, inserts the comment and increments the post's
`comments` counter in the same transaction. -/
def create_comment (db : DB) (postId : Nat) (username content : Option String)
    (now : String) : Except Err Comment × DB :=
  if falsy username || falsy content then (.error .invalidInput, db)
  else
    match db.posts.find? (fun p => p.id == postId) with
    | none => (.error .notFound, db)
    | some _ =>
      (.ok (newComment db postId username content now), { db with
        comments := newComment db postId username content now :: db.comments,
        posts := db.posts.map (fun p =>
          if p.id = postId then { p with comments := p.comments + 1 } else p),
        nextId := db.nextId + 1 })

/-- Handler `get_comment` (GET /posts/\x7bpostId\x7d/comments/\x7bcommentId\x7d). -/
def get_comment (db : DB) (postId commentId : Nat) : Except Err Comment × DB :=
  match db.comments.find? (fun c => c.id == commentId && c.postId == postId) with
  | none => (.error .notFound, db)
  | some c => (.ok c, db)

/-- Handler `update_comment` (PATCH /posts/\x7bpostId\x7d/comments/\x7bcommentId\x7d). -/
def update_comment (db : DB) (postId commentId : Nat)
    (username content : Option String) (now : String) :
    Except Err (Option Comment) × DB :=
  if falsy username || falsy content then (.error .invalidInput, db)
  else
    match db.comments.find? (fun c => c.id == commentId && c.postId == postId) with
    | none => (.error .notFound, db)
    | some _ =>
      (.ok ((db.comments.map (fun c =>
          if c.id = commentId ∧ c.postId = postId then
            { c with username := username.getD "", content := content.getD "",
                     updatedAt := now }
          else c)).find? (fun c => c.id == commentId && c.postId == postId)),
       { db with comments := db.comments.map (fun c =>
          if c.id = commentId ∧ c.postId = postId then
            { c with username := username.getD "", content := content.getD "",
                     updatedAt := now }
          else c) })

/-- Handler `delete_comment` (DELETE /posts/\x7bpostId\x7d/comments/\x7bcommentId\x7d):
deletes the comment and runs
UPDATE posts SET comments = comments - 1 WHERE id = ? AND comments > 0. -/
def delete_comment (db : DB) (postId commentId : Nat) : Except Err Unit × DB :=
  match db.comments.find? (fun c => c.id == commentId && c.postId == postId) with
  | none => (.error .notFound, db)
  | some _ =>
    (.ok (), { db with
      comments := db.comments.filter (fun c => !(c.id == commentId && c.postId == postId)),
      posts := db.posts.map (fun p =>
        if p.id = postId ∧ 0 < p.comments then { p with comments := p.comments - 1 }
        else p) })

/-- Handler `like_post` (POST /posts/\x7bpostId\x7d/likes): inserts the like edge
and increments `likes`; a duplicate-key IntegrityError is caught and ignored,
leaving the store unchanged. -/
def like_post (db : DB) (postId : Nat) (username : Option String) :
    Except Err Unit × DB :=
  if falsy username then (.error .invalidInput, db)
  else
    match db.posts.find? (fun p => p.id == postId) with
    | none => (.error .notFound, db)
    | some _ =>
      if db.likes.any (fun e => e.postId == postId && e.username == username.getD "") then
        (.ok (), db)
      else
        (.ok (), { db with
          likes := ⟨postId, username.getD ""⟩ :: db.likes,
          posts := db.posts.map (fun p =>
            if p.id = postId then { p with likes := p.likes + 1 } else p) })

/-- Handler `unlike_post` (DELETE /posts/\x7bpostId\x7d/likes): if no matching
edge exists it returns 204 without touching the store; otherwise it deletes
the edge and runs
UPDATE posts SET likes = likes - 1 WHERE id = ? AND likes > 0. -/
def unlike_post (db : DB) (postId : Nat) (username : Option String) :
    Except Err Unit × DB :=
  if falsy username then (.error .invalidInput, db)
  else
    match db.posts.find? (fun p => p.id == postId) with
    | none => (.error .notFound, db)
    | some _ =>
      match db.likes.find? (fun e => e.postId == postId && e.username == username.getD "") with
      | none => (.ok (), db)
      | some _ =>
        (.ok (), { db with
          likes := db.likes.filter
            (fun e => !(e.postId == postId && e.username == username.getD "")),
          posts := db.posts.map (fun p =>
            if p.id = postId ∧ 0 < p.likes then { p with likes := p.likes - 1 }
            else p) })

/-- One repository operation with its request parameters (handlers that
mutate or read the store; `list_posts` is the identity on the store). -/
inductive Op where
  | createPost (username content : Option String) (now : String)
  | getPost (postId : Nat)
  | updatePost (postId : Nat) (username content : Option String) (now : String)
  | deletePost (postId : Nat)
  | listComments (postId : Nat)
  | createComment (postId : Nat) (username content : Option String) (now : String)
  | getComment (postId commentId : Nat)
  | updateComment (postId commentId : Nat) (username content : Option String) (now : String)
  | deleteComment (postId commentId : Nat)
  | likePost (postId : Nat) (username : Option String)
  | unlikePost (postId : Nat) (username : Option String)
  deriving DecidableEq

/-- The state transition of one operation (the response is discarded). -/
def applyOp (db : DB) : Op → DB
  | .createPost u c now => (create_post db u c now).2
  | .getPost pid => (get_post db pid).2
  | .updatePost pid u c now => (update_post db pid u c now).2
  | .deletePost pid => (delete_post db pid).2
  | .listComments pid => (list_comments db pid).2
  | .createComment pid u c now => (create_comment db pid u c now).2
  | .getComment pid cid => (get_comment db pid cid).2
  | .updateComment pid cid u c now => (update_comment db pid cid u c now).2
  | .deleteComment pid cid => (delete_comment db pid cid).2
  | .likePost pid u => (like_post db pid u).2
  | .unlikePost pid u => (unlike_post db pid u).2

/-- Run a sequence of operations from a state. -/
def execOps (db : DB) (ops : List Op) : DB := ops.foldl applyOp db

/-- Number of like-edge rows whose `postId` is `pid`. -/
def countLikes (db : DB) (pid : Nat) : Nat :=
  (db.likes.filter (fun e => e.postId == pid)).length

/-- Number of comment rows whose `postId` is `pid`. -/
def countComments (db : DB) (pid : Nat) : Nat :=
  (db.comments.filter (fun c => c.postId == pid)).length

/-- The denormalized counters of every post equal the true child counts. -/
def countersOk (db : DB) : Prop :=
  ∀ p ∈ db.posts, p.likes = (countLikes db p.id : Int) ∧
    p.comments = (countComments db p.id : Int)

/-- Referential integrity: every child row references an existing post. -/
def refIntegrity (db : DB) : Prop :=
  (∀ c ∈ db.comments, c.postId ∈ db.posts.map Post.id) ∧
  (∀ e ∈ db.likes, e.postId ∈ db.posts.map Post.id)

/-- All stored ids were generated by the fresh-id counter. -/
def idsFresh (db : DB) : Prop :=
  (∀ p ∈ db.posts, p.id < db.nextId) ∧ (∀ c ∈ db.comments, c.id < db.nextId)

/-- Primary-key uniqueness of the three tables. -/
def keysUnique (db : DB) : Prop :=
  (db.posts.map Post.id).Nodup ∧ (db.comments.map Comment.id).Nodup ∧
  (db.likes.map (fun e => (e.postId, e.username))).Nodup

/-- The combined data-model invariant. -/
structure Inv (db : DB) : Prop where
  counters : countersOk db
  refint : refIntegrity db
  fresh : idsFresh db
  keys : keysUnique db

/-- A store reachable from the empty database by repository operations. -/
def Reachable (db : DB) : Prop :=
  ∃ ops : List Op, db = execOps initDB ops

/-- Removing the rows matched by `k` and then counting the rows matched by
`m` undercounts `m` by exactly the number of `k`-rows, provided every
`k`-row is an `m`-row. -/
theorem length_filter_erase {α : Type} (l : List α) (k m : α → Bool)
    (h : ∀ a ∈ l, k a = true → m a = true) :
    ((l.filter (fun a => !(k a))).filter m).length + (l.filter k).length
      = (l.filter m).length := by
  induction l with
  | nil => simp
  | cons a t ih =>
    have ht : ∀ b ∈ t, k b = true → m b = true := fun b hb => h b (List.mem_cons_of_mem _ hb)
    have iht := ih ht
    by_cases hk : k a = true
    · have hm := h a (List.mem_cons_self _ _) hk
      rw [show ((a :: t).filter fun b => !(k b)) = t.filter (fun b => !(k b)) by
            simp [List.filter_cons, hk],
          show (a :: t).filter k = a :: t.filter k by simp [List.filter_cons, hk],
          show (a :: t).filter m = a :: t.filter m by simp [List.filter_cons, hm]]
      simp only [List.length_cons]
      omega
    · simp only [Bool.not_eq_true] at hk
      rw [show ((a :: t).filter fun b => !(k b)) = a :: t.filter (fun b => !(k b)) by
            simp [List.filter_cons, hk],
          show (a :: t).filter k = t.filter k by simp [List.filter_cons, hk]]
      by_cases hm : m a = true
      · rw [show (a :: t.filter fun b => !(k b)).filter m
              = a :: (t.filter fun b => !(k b)).filter m by simp [List.filter_cons, hm],
            show (a :: t).filter m = a :: t.filter m by simp [List.filter_cons, hm]]
        simp only [List.length_cons]
        omega
      · simp only [Bool.not_eq_true] at hm
        rw [show (a :: t.filter fun b => !(k b)).filter m
              = (t.filter fun b => !(k b)).filter m by simp [List.filter_cons, hm],
            show (a :: t).filter m = t.filter m by simp [List.filter_cons, hm]]
        omega

/-- Removing the rows matched by `k` does not change the rows matched by
`m` when no `m`-row is a `k`-row. -/
theorem filter_erase_of_disjoint {α : Type} (l : List α) (k m : α → Bool)
    (h : ∀ a ∈ l, m a = true → k a = false) :
    (l.filter (fun a => !(k a))).filter m = l.filter m := by
  induction l with
  | nil => rfl
  | cons a t ih =>
    have ht : ∀ b ∈ t, m b = true → k b = false := fun b hb => h b (List.mem_cons_of_mem _ hb)
    by_cases hm : m a = true
    · have hk := h a (List.mem_cons_self _ _) hm
      simp [List.filter_cons, hk, hm, ih ht]
    · simp only [Bool.not_eq_true] at hm
      by_cases hk : k a = true
      · simp [List.filter_cons, hk, hm, ih ht]
      · simp only [Bool.not_eq_true] at hk
        simp [List.filter_cons, hk, hm, ih ht]

/-- In a list whose `key` images are pairwise distinct, key-based search
finds the member itself. -/
theorem find?_key {α β : Type} [DecidableEq β] (l : List α) (key : α → β)
    (v : β) (hnd : (l.map key).Nodup) (a : α) (ha : a ∈ l) (hv : key a = v) :
    l.find? (fun b => key b == v) = some a := by
  subst hv
  induction l with
  | nil => cases ha
  | cons x t ih =>
    rw [List.map_cons, List.nodup_cons] at hnd
    rcases List.mem_cons.mp ha with rfl | hat
    · simp [List.find?_cons]
    · have hne : (key x == key a) = false := by
        refine beq_eq_false_iff_ne.mpr fun hxa => ?_
        exact hnd.1 (by simpa using ⟨a, hat, hxa.symm⟩)
      simp [List.find?_cons, hne, ih hnd.2 hat]

/-- Mapping a key-preserving update over a list leaves the key column
unchanged. -/
theorem map_key_map {α β : Type} (l : List α) (f : α → α) (key : α → β)
    (h : ∀ a ∈ l, key (f a) = key a) :
    (l.map f).map key = l.map key := by
  rw [List.map_map]
  exact List.map_congr_left fun a ha => h a ha

/-- If the `key` column of `l` is duplicate-free, `a` is a member matched by
`k`, and every `k`-match shares `a`'s key, then `k` matches exactly one row. -/
theorem length_filter_eq_one {α β : Type} [DecidableEq β] (l : List α)
    (key : α → β) (k : α → Bool) (hnd : (l.map key).Nodup) (a : α) (ha : a ∈ l)
    (hka : k a = true) (hkey : ∀ b ∈ l, k b = true → key b = key a) :
    (l.filter k).length = 1 := by
  induction l with
  | nil => cases ha
  | cons x t ih =>
    rw [List.map_cons, List.nodup_cons] at hnd
    have hkeyt : ∀ b ∈ t, k b = true → key b = key a :=
      fun b hb => hkey b (List.mem_cons_of_mem _ hb)
    rcases List.mem_cons.mp ha with rfl | hat
    · have ht : t.filter k = [] := by
        refine List.filter_eq_nil_iff.mpr fun b hb hkb => ?_
        exact hnd.1 (List.mem_map.mpr ⟨b, hb, hkeyt b hb hkb⟩)
      simp [List.filter_cons, hka, ht]
    · have hkx : k x = false := by
        by_contra hx
        have hx2 : k x = true := by simpa using hx
        have hkeyx : key x = key a := hkey x (List.mem_cons_self _ _) hx2
        have : key a ∈ t.map key := List.mem_map.mpr ⟨a, hat, rfl⟩
        rw [← hkeyx] at this
        exact hnd.1 this
      simp [List.filter_cons, hkx, ih hnd.2 hat hkeyt]

/-- The empty database satisfies the invariant. -/
theorem inv_initDB : Inv initDB := by
  constructor <;>
    simp [countersOk, refIntegrity, idsFresh, keysUnique, initDB]

/-- GET of a post does not change the store. -/
theorem get_post_snd (db : DB) (pid : Nat) : (get_post db pid).2 = db := by
  unfold get_post
  cases db.posts.find? (fun p => p.id == pid) <;> rfl

/-- GET of the comment list does not change the store. -/
theorem list_comments_snd (db : DB) (pid : Nat) : (list_comments db pid).2 = db := by
  unfold list_comments
  cases db.posts.find? (fun p => p.id == pid) <;> rfl

/-- GET of a comment does not change the store. -/
theorem get_comment_snd (db : DB) (pid cid : Nat) : (get_comment db pid cid).2 = db := by
  unfold get_comment
  cases db.comments.find? (fun c => c.id == cid && c.postId == pid) <;> rfl

/-- `create_post` preserves the data-model invariant. -/
theorem inv_create_post (db : DB) (u c : Option String) (now : String)
    (h : Inv db) : Inv (create_post db u c now).2 := by
  unfold create_post
  split
  · exact h
  · have hfreshpid : ∀ x ∈ db.posts.map Post.id, x ≠ db.nextId := by
      intro x hx
      obtain ⟨q, hq, hqid⟩ := List.mem_map.mp hx
      have := h.fresh.1 q hq
      omega
    constructor
    · intro p hp
      dsimp only at hp
      have hcl : ∀ pid : Nat,
          countLikes { db with posts := newPost db u c now :: db.posts,
                               nextId := db.nextId + 1 } pid = countLikes db pid :=
        fun _ => rfl
      have hcc : ∀ pid : Nat,
          countComments { db with posts := newPost db u c now :: db.posts,
                                  nextId := db.nextId + 1 } pid = countComments db pid :=
        fun _ => rfl
      rcases List.mem_cons.mp hp with rfl | hp2
      · rw [hcl, hcc]
        have hel : db.likes.filter (fun e => e.postId == (newPost db u c now).id) = [] := by
          refine List.filter_eq_nil_iff.mpr fun e he hbe => ?_
          have hne := hfreshpid e.postId (h.refint.2 e he)
          have : e.postId = db.nextId := by simpa [newPost] using hbe
          omega
        have hec : db.comments.filter (fun x => x.postId == (newPost db u c now).id) = [] := by
          refine List.filter_eq_nil_iff.mpr fun x hx hbe => ?_
          have hne := hfreshpid x.postId (h.refint.1 x hx)
          have : x.postId = db.nextId := by simpa [newPost] using hbe
          omega
        constructor
        · show ((0 : Int)) = _
          simp [countLikes, hel]
        · show ((0 : Int)) = _
          simp [countComments, hec]
      · rw [hcl, hcc]
        exact h.counters p hp2
    · constructor
      · intro x hx
        dsimp only at hx ⊢
        rw [List.map_cons]
        exact List.mem_cons_of_mem _ (h.refint.1 x hx)
      · intro e he
        dsimp only at he ⊢
        rw [List.map_cons]
        exact List.mem_cons_of_mem _ (h.refint.2 e he)
    · constructor
      · intro p hp
        dsimp only at hp ⊢
        rcases List.mem_cons.mp hp with rfl | hp2
        · show db.nextId < db.nextId + 1
          omega
        · have := h.fresh.1 p hp2
          omega
      · intro x hx
        dsimp only at hx ⊢
        have := h.fresh.2 x hx
        omega
    · refine ⟨?_, h.keys.2.1, h.keys.2.2⟩
      dsimp only
      rw [List.map_cons]
      rw [List.nodup_cons]
      refine ⟨fun hmem => ?_, h.keys.1⟩
      exact hfreshpid db.nextId (by simpa [newPost] using hmem) rfl

/-- `update_post` preserves the data-model invariant. -/
theorem inv_update_post (db : DB) (pid : Nat) (u c : Option String) (now : String)
    (h : Inv db) : Inv (update_post db pid u c now).2 := by
  unfold update_post
  split
  · exact h
  split
  · exact h
  have hid : ∀ p : Post,
      (if p.id = pid then
        ({ p with username := u.getD "", content := c.getD "",
                  updatedAt := now } : Post)
      else p).id = p.id := by
    intro p
    split <;> rfl
  have hids : (db.posts.map fun p =>
      if p.id = pid then
        ({ p with username := u.getD "", content := c.getD "",
                  updatedAt := now } : Post)
      else p).map Post.id = db.posts.map Post.id :=
    map_key_map _ _ _ fun a _ => hid a
  constructor
  · intro p hp
    dsimp only at hp
    obtain ⟨q, hq, rfl⟩ := List.mem_map.mp hp
    have hc := h.counters q hq
    rw [hid q]
    by_cases hcase : q.id = pid
    · rw [if_pos hcase]
      exact ⟨by simpa [countLikes] using hc.1, by simpa [countComments] using hc.2⟩
    · rw [if_neg hcase]
      exact ⟨by simpa [countLikes] using hc.1, by simpa [countComments] using hc.2⟩
  · constructor
    · intro x hx
      dsimp only at hx ⊢
      rw [hids]
      exact h.refint.1 x hx
    · intro e he
      dsimp only at he ⊢
      rw [hids]
      exact h.refint.2 e he
  · constructor
    · intro p hp
      dsimp only at hp ⊢
      obtain ⟨q, hq, rfl⟩ := List.mem_map.mp hp
      rw [hid q]
      exact h.fresh.1 q hq
    · intro x hx
      exact h.fresh.2 x hx
  · refine ⟨?_, h.keys.2.1, h.keys.2.2⟩
    dsimp only
    rw [hids]
    exact h.keys.1

/-- `update_comment` preserves the data-model invariant. -/
theorem inv_update_comment (db : DB) (pid cid : Nat) (u c : Option String)
    (now : String) (h : Inv db) : Inv (update_comment db pid cid u c now).2 := by
  unfold update_comment
  split
  · exact h
  split
  · exact h
  have hid : ∀ x : Comment,
      (if x.id = cid ∧ x.postId = pid then
        ({ x with username := u.getD "", content := c.getD "",
                  updatedAt := now } : Comment)
      else x).id = x.id := by
    intro x
    split <;> rfl
  have hpost : ∀ x : Comment,
      (if x.id = cid ∧ x.postId = pid then
        ({ x with username := u.getD "", content := c.getD "",
                  updatedAt := now } : Comment)
      else x).postId = x.postId := by
    intro x
    split <;> rfl
  have hids : (db.comments.map fun x =>
      if x.id = cid ∧ x.postId = pid then
        ({ x with username := u.getD "", content := c.getD "",
                  updatedAt := now } : Comment)
      else x).map Comment.id = db.comments.map Comment.id :=
    map_key_map _ _ _ fun a _ => hid a
  have hlen : ∀ pid2 : Nat,
      ((db.comments.map fun x =>
        if x.id = cid ∧ x.postId = pid then
          ({ x with username := u.getD "", content := c.getD "",
                    updatedAt := now } : Comment)
        else x).filter (fun x => x.postId == pid2)).length
      = (db.comments.filter (fun x => x.postId == pid2)).length := by
    intro pid2
    rw [List.filter_map, List.length_map]
    refine congrArg List.length (List.filter_congr fun a _ => ?_)
    show ((if a.id = cid ∧ a.postId = pid then _ else a).postId == pid2) = _
    rw [hpost a]
  constructor
  · intro p hp
    dsimp only at hp
    have hc := h.counters p hp
    refine ⟨by simpa [countLikes] using hc.1, ?_⟩
    show p.comments = (((db.comments.map _).filter _).length : Int)
    rw [hlen p.id]
    simpa [countComments] using hc.2
  · constructor
    · intro x hx
      dsimp only at hx ⊢
      obtain ⟨q, hq, rfl⟩ := List.mem_map.mp hx
      rw [hpost q]
      exact h.refint.1 q hq
    · intro e he
      exact h.refint.2 e he
  · constructor
    · intro p hp
      exact h.fresh.1 p hp
    · intro x hx
      dsimp only at hx ⊢
      obtain ⟨q, hq, rfl⟩ := List.mem_map.mp hx
      rw [hid q]
      exact h.fresh.2 q hq
  · refine ⟨h.keys.1, ?_, h.keys.2.2⟩
    dsimp only
    rw [hids]
    exact h.keys.2.1

/-- `delete_post` preserves the data-model invariant. -/
theorem inv_delete_post (db : DB) (pid : Nat) (h : Inv db) :
    Inv (delete_post db pid).2 := by
  unfold delete_post
  split
  · exact h
  constructor
  · intro p hp
    dsimp only at hp
    have hp2 := List.mem_filter.mp hp
    have hpid : p.id ≠ pid := by
      have := hp2.2
      simp only [Bool.not_eq_eq_eq_not, Bool.not_true, beq_eq_false_iff_ne] at this
      exact this
    have hc := h.counters p hp2.1
    constructor
    · show p.likes =
        (((db.likes.filter fun e => !(e.postId == pid)).filter
          (fun e => e.postId == p.id)).length : Int)
      rw [filter_erase_of_disjoint db.likes _ _ ?_]
      · simpa [countLikes] using hc.1
      · intro a _ hm
        have : a.postId = p.id := by simpa using hm
        simp [this, hpid]
    · show p.comments =
        (((db.comments.filter fun x => !(x.postId == pid)).filter
          (fun x => x.postId == p.id)).length : Int)
      rw [filter_erase_of_disjoint db.comments _ _ ?_]
      · simpa [countComments] using hc.2
      · intro a _ hm
        have : a.postId = p.id := by simpa using hm
        simp [this, hpid]
  · constructor
    · intro x hx
      dsimp only at hx ⊢
      have hx2 := List.mem_filter.mp hx
      have hxpid : x.postId ≠ pid := by
        have := hx2.2
        simp only [Bool.not_eq_eq_eq_not, Bool.not_true, beq_eq_false_iff_ne] at this
        exact this
      obtain ⟨q, hq, hqid⟩ := List.mem_map.mp (h.refint.1 x hx2.1)
      refine List.mem_map.mpr ⟨q, List.mem_filter.mpr ⟨hq, ?_⟩, hqid⟩
      simp [hqid, hxpid]
    · intro e he
      dsimp only at he ⊢
      have he2 := List.mem_filter.mp he
      have hepid : e.postId ≠ pid := by
        have := he2.2
        simp only [Bool.not_eq_eq_eq_not, Bool.not_true, beq_eq_false_iff_ne] at this
        exact this
      obtain ⟨q, hq, hqid⟩ := List.mem_map.mp (h.refint.2 e he2.1)
      refine List.mem_map.mpr ⟨q, List.mem_filter.mpr ⟨hq, ?_⟩, hqid⟩
      simp [hqid, hepid]
  · constructor
    · intro p hp
      exact h.fresh.1 p (List.mem_of_mem_filter hp)
    · intro x hx
      exact h.fresh.2 x (List.mem_of_mem_filter hx)
  · exact ⟨h.keys.1.sublist ((List.filter_sublist _).map _),
      h.keys.2.1.sublist ((List.filter_sublist _).map _),
      h.keys.2.2.sublist ((List.filter_sublist _).map _)⟩

/-- `create_comment` preserves the data-model invariant. -/
theorem inv_create_comment (db : DB) (pid : Nat) (u c : Option String)
    (now : String) (h : Inv db) : Inv (create_comment db pid u c now).2 := by
  unfold create_comment
  split
  · exact h
  split
  · exact h
  rename_i p0 heq
  have hp0mem := List.mem_of_find?_eq_some heq
  have hp0id : p0.id = pid := by simpa using List.find?_some heq
  have hpidmem : pid ∈ db.posts.map Post.id := List.mem_map.mpr ⟨p0, hp0mem, hp0id⟩
  have hid : ∀ p : Post,
      (if p.id = pid then ({ p with comments := p.comments + 1 } : Post) else p).id
        = p.id := by
    intro p
    split <;> rfl
  have hids := map_key_map db.posts
    (fun p => if p.id = pid then ({ p with comments := p.comments + 1 } : Post) else p)
    Post.id (fun a _ => hid a)
  constructor
  · intro p hp
    dsimp only at hp
    obtain ⟨q, hq, rfl⟩ := List.mem_map.mp hp
    have hc1 := (h.counters q hq).1
    have hc2 := (h.counters q hq).2
    simp only [countLikes, countComments] at hc1 hc2 ⊢
    rw [hid q, List.filter_cons]
    by_cases hcase : q.id = pid
    · rw [if_pos hcase]
      dsimp only [newComment]
      rw [if_pos (beq_iff_eq.mpr hcase.symm)]
      rw [List.length_cons]
      exact ⟨hc1, by omega⟩
    · rw [if_neg hcase]
      dsimp only [newComment]
      rw [if_neg (by simpa using fun h2 : pid = q.id => hcase h2.symm)]
      exact ⟨hc1, hc2⟩
  · constructor
    · intro x hx
      dsimp only at hx ⊢
      rw [hids]
      rcases List.mem_cons.mp hx with rfl | hx2
      · simpa [newComment] using hpidmem
      · exact h.refint.1 x hx2
    · intro e he
      dsimp only at he ⊢
      rw [hids]
      exact h.refint.2 e he
  · constructor
    · intro p hp
      dsimp only at hp ⊢
      obtain ⟨q, hq, rfl⟩ := List.mem_map.mp hp
      rw [hid q]
      have := h.fresh.1 q hq
      omega
    · intro x hx
      dsimp only at hx ⊢
      rcases List.mem_cons.mp hx with rfl | hx2
      · simp [newComment]
      · have := h.fresh.2 x hx2
        omega
  · refine ⟨?_, ?_, h.keys.2.2⟩
    · dsimp only
      rw [hids]
      exact h.keys.1
    · dsimp only
      rw [List.map_cons, List.nodup_cons]
      refine ⟨fun hmem => ?_, h.keys.2.1⟩
      obtain ⟨x, hx, hxid⟩ := List.mem_map.mp hmem
      have := h.fresh.2 x hx
      simp only [newComment] at hxid
      omega

/-- `like_post` preserves the data-model invariant. -/
theorem inv_like_post (db : DB) (pid : Nat) (u : Option String) (h : Inv db) :
    Inv (like_post db pid u).2 := by
  unfold like_post
  split
  · exact h
  split
  · exact h
  rename_i p0 heq
  split
  · exact h
  rename_i hany
  have hp0mem := List.mem_of_find?_eq_some heq
  have hp0id : p0.id = pid := by simpa using List.find?_some heq
  have hpidmem : pid ∈ db.posts.map Post.id := List.mem_map.mpr ⟨p0, hp0mem, hp0id⟩
  have hnotin : ∀ e ∈ db.likes, ¬(e.postId = pid ∧ e.username = u.getD "") := by
    intro e he hcontra
    exact hany (List.any_eq_true.mpr ⟨e, he, by simp [hcontra.1, hcontra.2]⟩)
  have hid : ∀ p : Post,
      (if p.id = pid then ({ p with likes := p.likes + 1 } : Post) else p).id
        = p.id := by
    intro p
    split <;> rfl
  have hids := map_key_map db.posts
    (fun p => if p.id = pid then ({ p with likes := p.likes + 1 } : Post) else p)
    Post.id (fun a _ => hid a)
  constructor
  · intro p hp
    dsimp only at hp
    obtain ⟨q, hq, rfl⟩ := List.mem_map.mp hp
    have hc1 := (h.counters q hq).1
    have hc2 := (h.counters q hq).2
    simp only [countLikes, countComments] at hc1 hc2 ⊢
    rw [hid q, List.filter_cons]
    by_cases hcase : q.id = pid
    · rw [if_pos hcase]
      dsimp only
      rw [if_pos (beq_iff_eq.mpr hcase.symm)]
      rw [List.length_cons]
      exact ⟨by omega, hc2⟩
    · rw [if_neg hcase]
      dsimp only
      rw [if_neg (by simpa using fun h2 : pid = q.id => hcase h2.symm)]
      exact ⟨hc1, hc2⟩
  · constructor
    · intro x hx
      dsimp only at hx ⊢
      rw [hids]
      exact h.refint.1 x hx
    · intro e he
      dsimp only at he ⊢
      rw [hids]
      rcases List.mem_cons.mp he with rfl | he2
      · exact hpidmem
      · exact h.refint.2 e he2
  · constructor
    · intro p hp
      dsimp only at hp ⊢
      obtain ⟨q, hq, rfl⟩ := List.mem_map.mp hp
      rw [hid q]
      exact h.fresh.1 q hq
    · intro x hx
      exact h.fresh.2 x hx
  · refine ⟨?_, h.keys.2.1, ?_⟩
    · dsimp only
      rw [hids]
      exact h.keys.1
    · dsimp only
      rw [List.map_cons, List.nodup_cons]
      refine ⟨fun hmem => ?_, h.keys.2.2⟩
      obtain ⟨e, he, hekey⟩ := List.mem_map.mp hmem
      have hparts := Prod.mk.injEq _ _ _ _ ▸ hekey
      exact hnotin e he ⟨(Prod.ext_iff.mp hekey).1, (Prod.ext_iff.mp hekey).2⟩

/-- `delete_comment` preserves the data-model invariant. -/
theorem inv_delete_comment (db : DB) (pid cid : Nat) (h : Inv db) :
    Inv (delete_comment db pid cid).2 := by
  unfold delete_comment
  split
  · exact h
  rename_i c0 heq
  have hc0mem := List.mem_of_find?_eq_some heq
  have hc0key : c0.id = cid ∧ c0.postId = pid := by simpa using List.find?_some heq
  have hone : (db.comments.filter (fun x => x.id == cid && x.postId == pid)).length
      = 1 := by
    refine length_filter_eq_one db.comments Comment.id _ h.keys.2.1 c0 hc0mem
      (by simp [hc0key.1, hc0key.2]) ?_
    intro b _ hb
    simp only [Bool.and_eq_true, beq_iff_eq] at hb
    rw [hb.1, hc0key.1]
  have hid : ∀ p : Post,
      (if p.id = pid ∧ 0 < p.comments then ({ p with comments := p.comments - 1 } : Post)
       else p).id = p.id := by
    intro p
    split <;> rfl
  have hids := map_key_map db.posts
    (fun p => if p.id = pid ∧ 0 < p.comments
      then ({ p with comments := p.comments - 1 } : Post) else p)
    Post.id (fun a _ => hid a)
  constructor
  · intro p hp
    dsimp only at hp
    obtain ⟨q, hq, rfl⟩ := List.mem_map.mp hp
    have hc1 := (h.counters q hq).1
    have hc2 := (h.counters q hq).2
    simp only [countLikes, countComments] at hc1 hc2 ⊢
    rw [hid q]
    by_cases hcase : q.id = pid ∧ 0 < q.comments
    · rw [if_pos hcase]
      refine ⟨hc1, ?_⟩
      have herase := length_filter_erase db.comments
        (fun x => x.id == cid && x.postId == pid) (fun x => x.postId == q.id) ?_
      · rw [hone] at herase
        dsimp only
        omega
      · intro a _ ha
        simp only [Bool.and_eq_true, beq_iff_eq] at ha ⊢
        rw [ha.2, hcase.1]
    · rw [if_neg hcase]
      by_cases hqid : q.id = pid
      · exfalso
        have hmemf : c0 ∈ db.comments.filter (fun x => x.postId == pid) :=
          List.mem_filter.mpr ⟨hc0mem, by simp [hc0key.2]⟩
        have hpos : 0 < (db.comments.filter (fun x => x.postId == pid)).length :=
          List.length_pos.mpr (List.ne_nil_of_mem hmemf)
        rw [hqid] at hc2
        exact hcase ⟨hqid, by omega⟩
      · refine ⟨hc1, ?_⟩
        rw [filter_erase_of_disjoint db.comments _ _ ?_]
        · exact hc2
        · intro a _ hm
          have ham : a.postId = q.id := by simpa using hm
          simp [ham, hqid]
  · constructor
    · intro x hx
      dsimp only at hx ⊢
      rw [hids]
      exact h.refint.1 x (List.mem_of_mem_filter hx)
    · intro e he
      dsimp only at he ⊢
      rw [hids]
      exact h.refint.2 e he
  · constructor
    · intro p hp
      dsimp only at hp ⊢
      obtain ⟨q, hq, rfl⟩ := List.mem_map.mp hp
      rw [hid q]
      exact h.fresh.1 q hq
    · intro x hx
      exact h.fresh.2 x (List.mem_of_mem_filter hx)
  · refine ⟨?_, h.keys.2.1.sublist ((List.filter_sublist _).map _), h.keys.2.2⟩
    dsimp only
    rw [hids]
    exact h.keys.1

/-- `unlike_post` preserves the data-model invariant. -/
theorem inv_unlike_post (db : DB) (pid : Nat) (u : Option String) (h : Inv db) :
    Inv (unlike_post db pid u).2 := by
  unfold unlike_post
  split
  · exact h
  split
  · exact h
  split
  · exact h
  rename_i e0 heq
  have he0mem := List.mem_of_find?_eq_some heq
  have he0key : e0.postId = pid ∧ e0.username = u.getD "" := by
    simpa using List.find?_some heq
  have hone : (db.likes.filter
      (fun e => e.postId == pid && e.username == u.getD "")).length = 1 := by
    refine length_filter_eq_one db.likes (fun e => (e.postId, e.username)) _
      h.keys.2.2 e0 he0mem (by simp [he0key.1, he0key.2]) ?_
    intro b _ hb
    simp only [Bool.and_eq_true, beq_iff_eq] at hb
    show (b.postId, b.username) = (e0.postId, e0.username)
    rw [hb.1, hb.2, he0key.1, he0key.2]
  have hid : ∀ p : Post,
      (if p.id = pid ∧ 0 < p.likes then ({ p with likes := p.likes - 1 } : Post)
       else p).id = p.id := by
    intro p
    split <;> rfl
  have hids := map_key_map db.posts
    (fun p => if p.id = pid ∧ 0 < p.likes
      then ({ p with likes := p.likes - 1 } : Post) else p)
    Post.id (fun a _ => hid a)
  constructor
  · intro p hp
    dsimp only at hp
    obtain ⟨q, hq, rfl⟩ := List.mem_map.mp hp
    have hc1 := (h.counters q hq).1
    have hc2 := (h.counters q hq).2
    simp only [countLikes, countComments] at hc1 hc2 ⊢
    rw [hid q]
    by_cases hcase : q.id = pid ∧ 0 < q.likes
    · rw [if_pos hcase]
      refine ⟨?_, hc2⟩
      have herase := length_filter_erase db.likes
        (fun e => e.postId == pid && e.username == u.getD "")
        (fun e => e.postId == q.id) ?_
      · rw [hone] at herase
        dsimp only
        omega
      · intro a _ ha
        simp only [Bool.and_eq_true, beq_iff_eq] at ha ⊢
        rw [ha.1, hcase.1]
    · rw [if_neg hcase]
      by_cases hqid : q.id = pid
      · exfalso
        have hmemf : e0 ∈ db.likes.filter (fun e => e.postId == pid) :=
          List.mem_filter.mpr ⟨he0mem, by simp [he0key.1]⟩
        have hpos : 0 < (db.likes.filter (fun e => e.postId == pid)).length :=
          List.length_pos.mpr (List.ne_nil_of_mem hmemf)
        rw [hqid] at hc1
        exact hcase ⟨hqid, by omega⟩
      · refine ⟨?_, hc2⟩
        rw [filter_erase_of_disjoint db.likes _ _ ?_]
        · exact hc1
        · intro a _ hm
          have ham : a.postId = q.id := by simpa using hm
          simp [ham, hqid]
  · constructor
    · intro x hx
      dsimp only at hx ⊢
      rw [hids]
      exact h.refint.1 x hx
    · intro e he
      dsimp only at he ⊢
      rw [hids]
      exact h.refint.2 e (List.mem_of_mem_filter he)
  · constructor
    · intro p hp
      dsimp only at hp ⊢
      obtain ⟨q, hq, rfl⟩ := List.mem_map.mp hp
      rw [hid q]
      exact h.fresh.1 q hq
    · intro x hx
      exact h.fresh.2 x hx
  · refine ⟨?_, h.keys.2.1, h.keys.2.2.sublist ((List.filter_sublist _).map _)⟩
    dsimp only
    rw [hids]
    exact h.keys.1

/-- Every repository operation preserves the data-model invariant. -/
theorem inv_applyOp (db : DB) (op : Op) (h : Inv db) : Inv (applyOp db op) := by
  cases op with
  | createPost u c now => exact inv_create_post db u c now h
  | getPost pid =>
    simp only [applyOp, get_post_snd]
    exact h
  | updatePost pid u c now => exact inv_update_post db pid u c now h
  | deletePost pid => exact inv_delete_post db pid h
  | listComments pid =>
    simp only [applyOp, list_comments_snd]
    exact h
  | createComment pid u c now => exact inv_create_comment db pid u c now h
  | getComment pid cid =>
    simp only [applyOp, get_comment_snd]
    exact h
  | updateComment pid cid u c now => exact inv_update_comment db pid cid u c now h
  | deleteComment pid cid => exact inv_delete_comment db pid cid h
  | likePost pid u => exact inv_like_post db pid u h
  | unlikePost pid u => exact inv_unlike_post db pid u h

/-- Invariant preservation along any operation sequence. -/
theorem inv_execOps (db : DB) (ops : List Op) (h : Inv db) : Inv (execOps db ops) := by
  induction ops generalizing db with
  | nil => exact h
  | cons op t ih => exact ih _ (inv_applyOp db op h)

/-- Every reachable store satisfies the data-model invariant. -/
theorem inv_reachable (db : DB) (h : Reachable db) : Inv db := by
  obtain ⟨ops, rfl⟩ := h
  exact inv_execOps initDB ops inv_initDB

/-- C1: after every sequence of repository operations from the empty store,
every post's `likes` field equals the number of like-edge rows whose
`postId` is that post's id, and its `comments` field equals the number of
comment rows whose `postId` is that post's id. -/
theorem C1_counters_match (ops : List Op) (p : Post)
    (hp : p ∈ (execOps initDB ops).posts) :
    p.likes = (countLikes (execOps initDB ops) p.id : Int) ∧
    p.comments = (countComments (execOps initDB ops) p.id : Int) :=
  (inv_execOps initDB ops inv_initDB).counters p hp

/-- Witness for C1: a concrete run (create a post, like it, comment on it)
whose resulting post row has counters matching the true child counts. -/
theorem C1_witness :
    (⟨0, "a", "hi", "t", "t", 1, 1⟩ : Post) ∈
      (execOps initDB [Op.createPost (some "a") (some "hi") "t",
        Op.likePost 0 (some "b"),
        Op.createComment 0 (some "c") (some "d") "t"]).posts ∧
    ((⟨0, "a", "hi", "t", "t", 1, 1⟩ : Post).likes
        = (countLikes (execOps initDB [Op.createPost (some "a") (some "hi") "t",
            Op.likePost 0 (some "b"),
            Op.createComment 0 (some "c") (some "d") "t"])
            (⟨0, "a", "hi", "t", "t", 1, 1⟩ : Post).id : Int) ∧
     (⟨0, "a", "hi", "t", "t", 1, 1⟩ : Post).comments
        = (countComments (execOps initDB [Op.createPost (some "a") (some "hi") "t",
            Op.likePost 0 (some "b"),
            Op.createComment 0 (some "c") (some "d") "t"])
            (⟨0, "a", "hi", "t", "t", 1, 1⟩ : Post).id : Int)) :=
  ⟨by decide, C1_counters_match _ _ (by decide)⟩

/-- C5: in every reachable store, every comment row's `postId` and every
like-edge row's `postId` reference a post present in the store. -/
theorem C5_referential_integrity (ops : List Op) :
    refIntegrity (execOps initDB ops) :=
  (inv_execOps initDB ops inv_initDB).refint

/-- Witness for C5 at a concrete run with one post, one like and one
comment. -/
theorem C5_witness :
    refIntegrity (execOps initDB [Op.createPost (some "a") (some "hi") "t",
      Op.likePost 0 (some "b"), Op.createComment 0 (some "c") (some "d") "t"]) :=
  C5_referential_integrity _

/-- C3: unliking an existing post with a non-empty username but no matching
like-edge returns 204 (success) with the store — and hence the post's
`likes` counter — unchanged; and in no reachable store is any post's
`likes` counter negative. -/
theorem C3_unlike_absent_noop (ops : List Op) (p : Post) (u : String)
    (ops2 : List Op) (hp : p ∈ (execOps initDB ops).posts) (hu : u ≠ "")
    (hno : ∀ e ∈ (execOps initDB ops).likes,
      ¬(e.postId = p.id ∧ e.username = u)) :
    unlike_post (execOps initDB ops) p.id (some u)
      = (.ok (), execOps initDB ops) ∧
    ∀ q ∈ (execOps initDB ops2).posts, 0 ≤ q.likes := by
  have hinv := inv_execOps initDB ops inv_initDB
  constructor
  · unfold unlike_post
    rw [if_neg (by simp [falsy, hu])]
    simp only [Option.getD_some]
    rw [find?_key (execOps initDB ops).posts Post.id p.id hinv.keys.1 p hp rfl]
    have hfind2 : (execOps initDB ops).likes.find?
        (fun e => e.postId == p.id && e.username == u) = none := by
      refine List.find?_eq_none.mpr fun e he hbe => ?_
      simp only [Bool.and_eq_true, beq_iff_eq] at hbe
      exact hno e he ⟨hbe.1, hbe.2⟩
    rw [hfind2]
  · intro q hq
    have h1 := ((inv_execOps initDB ops2 inv_initDB).counters q hq).1
    omega

/-- Witness for C3: concrete store with one liked post; unliking it as a
user who never liked it is a successful no-op. -/
theorem C3_witness :
    (⟨0, "a", "hi", "t", "t", 1, 0⟩ : Post) ∈
      (execOps initDB [Op.createPost (some "a") (some "hi") "t",
        Op.likePost 0 (some "b")]).posts ∧
    "z" ≠ "" ∧
    (∀ e ∈ (execOps initDB [Op.createPost (some "a") (some "hi") "t",
        Op.likePost 0 (some "b")]).likes,
      ¬(e.postId = (⟨0, "a", "hi", "t", "t", 1, 0⟩ : Post).id ∧ e.username = "z")) ∧
    (unlike_post (execOps initDB [Op.createPost (some "a") (some "hi") "t",
        Op.likePost 0 (some "b")]) (⟨0, "a", "hi", "t", "t", 1, 0⟩ : Post).id (some "z")
      = (.ok (), execOps initDB [Op.createPost (some "a") (some "hi") "t",
          Op.likePost 0 (some "b")]) ∧
     ∀ q ∈ (execOps initDB [Op.createPost (some "a") (some "hi") "t",
        Op.likePost 0 (some "b")]).posts, 0 ≤ q.likes) :=
  ⟨by decide, by decide, by decide,
    C3_unlike_absent_noop _ _ "z" _ (by decide) (by decide) (by decide)⟩

/-- C6: on a reachable store, create_post with truthy fields returns and
persists a post whose id is fresh and unique among existing posts, whose
createdAt equals its updatedAt, and whose counters are 0; with a falsy
field it fails with InvalidInput and leaves the store unchanged. -/
theorem C6_create_post_spec (ops : List Op) (u c : Option String)
    (now : String) (hu : falsy u = false) (hc : falsy c = false) :
    (create_post (execOps initDB ops) u c now).1
        = .ok (newPost (execOps initDB ops) u c now) ∧
    newPost (execOps initDB ops) u c now
        ∈ (create_post (execOps initDB ops) u c now).2.posts ∧
    (newPost (execOps initDB ops) u c now).id
        ∉ (execOps initDB ops).posts.map Post.id ∧
    ((create_post (execOps initDB ops) u c now).2.posts.map Post.id).Nodup ∧
    (newPost (execOps initDB ops) u c now).createdAt
        = (newPost (execOps initDB ops) u c now).updatedAt ∧
    (newPost (execOps initDB ops) u c now).likes = 0 ∧
    (newPost (execOps initDB ops) u c now).comments = 0 ∧
    ∀ u2 c2 : Option String, (falsy u2 || falsy c2) = true →
      create_post (execOps initDB ops) u2 c2 now
        = (.error .invalidInput, execOps initDB ops) := by
  have hinv := inv_execOps initDB ops inv_initDB
  have hstep : create_post (execOps initDB ops) u c now
      = (.ok (newPost (execOps initDB ops) u c now),
         { execOps initDB ops with
             posts := newPost (execOps initDB ops) u c now
               :: (execOps initDB ops).posts,
             nextId := (execOps initDB ops).nextId + 1 }) := by
    unfold create_post
    rw [if_neg (by simp [hu, hc])]
  have hnodup := (inv_create_post (execOps initDB ops) u c now hinv).keys.1
  refine ⟨?_, ?_, ?_, hnodup, rfl, rfl, rfl, ?_⟩
  · rw [hstep]
  · rw [hstep]
    exact List.mem_cons_self _ _
  · intro hmem
    obtain ⟨q, hq, hqid⟩ := List.mem_map.mp hmem
    have := hinv.fresh.1 q hq
    simp only [newPost] at hqid
    omega
  · intro u2 c2 h2
    unfold create_post
    rw [if_pos h2]

/-- Witness for C6: creating a post on the empty store. -/
theorem C6_witness :
    falsy (some "a") = false ∧ falsy (some "hi") = false ∧
    ((create_post (execOps initDB []) (some "a") (some "hi") "t").1
        = .ok (newPost (execOps initDB []) (some "a") (some "hi") "t") ∧
     newPost (execOps initDB []) (some "a") (some "hi") "t"
        ∈ (create_post (execOps initDB []) (some "a") (some "hi") "t").2.posts ∧
     (newPost (execOps initDB []) (some "a") (some "hi") "t").id
        ∉ (execOps initDB []).posts.map Post.id ∧
     ((create_post (execOps initDB []) (some "a") (some "hi") "t").2.posts.map
        Post.id).Nodup ∧
     (newPost (execOps initDB []) (some "a") (some "hi") "t").createdAt
        = (newPost (execOps initDB []) (some "a") (some "hi") "t").updatedAt ∧
     (newPost (execOps initDB []) (some "a") (some "hi") "t").likes = 0 ∧
     (newPost (execOps initDB []) (some "a") (some "hi") "t").comments = 0 ∧
     ∀ u2 c2 : Option String, (falsy u2 || falsy c2) = true →
       create_post (execOps initDB []) u2 c2 "t"
         = (.error .invalidInput, execOps initDB [])) :=
  ⟨by decide, by decide,
    C6_create_post_spec [] (some "a") (some "hi") "t" (by decide) (by decide)⟩

/-- C8: create_comment with truthy fields but an absent post fails with
NotFound and leaves the whole store unchanged; with a falsy field it fails
with InvalidInput before any storage mutation, also leaving the store
unchanged. -/
theorem C8_create_comment_error_frame (db : DB) (pid : Nat)
    (u c : Option String) (now : String)
    (habs : pid ∉ db.posts.map Post.id)
    (hu : falsy u = false) (hc : falsy c = false) :
    create_comment db pid u c now = (.error .notFound, db) ∧
    ∀ pid2 : Nat, ∀ u2 c2 : Option String, (falsy u2 || falsy c2) = true →
      create_comment db pid2 u2 c2 now = (.error .invalidInput, db) := by
  constructor
  · unfold create_comment
    rw [if_neg (by simp [hu, hc])]
    have hfind : db.posts.find? (fun p => p.id == pid) = none := by
      refine List.find?_eq_none.mpr fun q hq hbe => ?_
      exact habs (List.mem_map.mpr ⟨q, hq, by simpa using hbe⟩)
    rw [hfind]
  · intro pid2 u2 c2 h2
    unfold create_comment
    rw [if_pos h2]

/-- Witness for C8: commenting on the empty store under an absent post id. -/
theorem C8_witness :
    (0 : Nat) ∉ initDB.posts.map Post.id ∧
    falsy (some "a") = false ∧ falsy (some "hi") = false ∧
    (create_comment initDB 0 (some "a") (some "hi") "t"
        = (.error .notFound, initDB) ∧
     ∀ pid2 : Nat, ∀ u2 c2 : Option String, (falsy u2 || falsy c2) = true →
       create_comment initDB pid2 u2 c2 "t" = (.error .invalidInput, initDB)) :=
  ⟨by decide, by decide, by decide,
    C8_create_comment_error_frame initDB 0 (some "a") (some "hi") "t"
      (by decide) (by decide) (by decide)⟩

/-- C9: delete_comment succeeds when a comment matches both keys, deleting
every such comment row and decrementing the owning post's comments counter
clamped at a floor of 0 (a no-op when it is not positive, still succeeding
and never producing a negative counter); it fails with NotFound, leaving
the store unchanged, when no comment matches both keys. -/
theorem C9_delete_comment_spec (db : DB) (x : Comment) (pid cid : Nat)
    (hx : x ∈ db.comments) (hxid : x.id = cid) (hxpid : x.postId = pid)
    (hnn : ∀ q ∈ db.posts, 0 ≤ q.comments) :
    (delete_comment db pid cid).1 = .ok () ∧
    (∀ c2 ∈ (delete_comment db pid cid).2.comments,
      ¬(c2.id = cid ∧ c2.postId = pid)) ∧
    (∀ q ∈ db.posts, q.id = pid → 0 < q.comments →
      { q with comments := q.comments - 1 }
        ∈ (delete_comment db pid cid).2.posts) ∧
    (∀ q ∈ db.posts, q.id = pid → q.comments ≤ 0 →
      q ∈ (delete_comment db pid cid).2.posts) ∧
    (∀ q ∈ (delete_comment db pid cid).2.posts, 0 ≤ q.comments) ∧
    (∀ pid2 cid2 : Nat,
      (∀ c2 ∈ db.comments, ¬(c2.id = cid2 ∧ c2.postId = pid2)) →
      delete_comment db pid2 cid2 = (.error .notFound, db)) := by
  have hxpred : (x.id == cid && x.postId == pid) = true := by
    simp [hxid, hxpid]
  have hsome : (db.comments.find?
      (fun c2 => c2.id == cid && c2.postId == pid)).isSome = true :=
    List.find?_isSome.mpr ⟨x, hx, hxpred⟩
  obtain ⟨x0, hx0⟩ := Option.isSome_iff_exists.mp hsome
  have hstep : delete_comment db pid cid
      = (.ok (), { db with
          comments := db.comments.filter
            (fun c2 => !(c2.id == cid && c2.postId == pid)),
          posts := db.posts.map (fun p =>
            if p.id = pid ∧ 0 < p.comments
            then { p with comments := p.comments - 1 } else p) }) := by
    unfold delete_comment
    rw [hx0]
  rw [hstep]
  dsimp only
  refine ⟨rfl, ?_, ?_, ?_, ?_, ?_⟩
  · intro c2 hc2
    intro hcon
    have h2 := (List.mem_filter.mp hc2).2
    simp [hcon.1, hcon.2] at h2
  · intro q hq hqid hqpos
    exact List.mem_map.mpr ⟨q, hq, by rw [if_pos ⟨hqid, hqpos⟩]⟩
  · intro q hq hqid hqle
    refine List.mem_map.mpr ⟨q, hq, ?_⟩
    rw [if_neg ?_]
    rintro ⟨-, hpos⟩
    omega
  · intro q hq
    obtain ⟨q0, hq0, rfl⟩ := List.mem_map.mp hq
    have h0 := hnn q0 hq0
    by_cases hcase : q0.id = pid ∧ 0 < q0.comments
    · rw [if_pos hcase]
      dsimp only
      omega
    · rw [if_neg hcase]
      exact h0
  · intro pid2 cid2 hnone
    have hfind : db.comments.find?
        (fun c2 => c2.id == cid2 && c2.postId == pid2) = none := by
      refine List.find?_eq_none.mpr fun c2 hc2 hbe => ?_
      simp only [Bool.and_eq_true, beq_iff_eq] at hbe
      exact hnone c2 hc2 ⟨hbe.1, hbe.2⟩
    unfold delete_comment
    rw [hfind]

/-- Witness for C9: deleting the only comment of a post. -/
theorem C9_witness :
    (⟨1, 0, "b", "c", "t", "t"⟩ : Comment) ∈
      (execOps initDB [Op.createPost (some "a") (some "hi") "t",
        Op.createComment 0 (some "b") (some "c") "t"]).comments ∧
    (⟨1, 0, "b", "c", "t", "t"⟩ : Comment).id = 1 ∧
    (⟨1, 0, "b", "c", "t", "t"⟩ : Comment).postId = 0 ∧
    (∀ q ∈ (execOps initDB [Op.createPost (some "a") (some "hi") "t",
        Op.createComment 0 (some "b") (some "c") "t"]).posts, 0 ≤ q.comments) ∧
    (delete_comment (execOps initDB [Op.createPost (some "a") (some "hi") "t",
        Op.createComment 0 (some "b") (some "c") "t"]) 0 1).1 = .ok () :=
  ⟨by decide, by decide, by decide, by decide,
    (C9_delete_comment_spec
      (execOps initDB [Op.createPost (some "a") (some "hi") "t",
        Op.createComment 0 (some "b") (some "c") "t"])
      ⟨1, 0, "b", "c", "t", "t"⟩ 0 1
      (by decide) (by decide) (by decide) (by decide)).1⟩

/-- C10: every validated handler fails with InvalidInput exactly when a
required body field is falsy (missing key, null, or empty string), and a
non-empty string — even pure whitespace — is accepted: create_post with
username " " succeeds and persists that username verbatim. -/
theorem C10_validation_truthiness (db : DB) (pid cid : Nat)
    (u c : Option String) (now : String) :
    ((create_post db u c now).1 = .error .invalidInput
        ↔ (falsy u = true ∨ falsy c = true)) ∧
    ((update_post db pid u c now).1 = .error .invalidInput
        ↔ (falsy u = true ∨ falsy c = true)) ∧
    ((create_comment db pid u c now).1 = .error .invalidInput
        ↔ (falsy u = true ∨ falsy c = true)) ∧
    ((update_comment db pid cid u c now).1 = .error .invalidInput
        ↔ (falsy u = true ∨ falsy c = true)) ∧
    ((like_post db pid u).1 = .error .invalidInput ↔ falsy u = true) ∧
    ((unlike_post db pid u).1 = .error .invalidInput ↔ falsy u = true) ∧
    (falsy none = true ∧ falsy (some "") = true ∧
      ∀ s : String, s ≠ "" → falsy (some s) = false) ∧
    ((create_post db (some " ") (some "x") now).1
        = .ok (newPost db (some " ") (some "x") now) ∧
     (newPost db (some " ") (some "x") now).username = " " ∧
     newPost db (some " ") (some "x") now
        ∈ (create_post db (some " ") (some "x") now).2.posts) := by
  refine ⟨?_, ?_, ?_, ?_, ?_, ?_, ⟨rfl, by decide, fun s hs => ?_⟩, ?_, rfl, ?_⟩
  · unfold create_post
    cases hfu : falsy u <;> cases hfc : falsy c <;> simp
  · unfold update_post
    cases hfu : falsy u <;> cases hfc : falsy c
    · cases hfind : db.posts.find? (fun p => p.id == pid) <;> simp [hfind]
    · simp
    · simp
    · simp
  · unfold create_comment
    cases hfu : falsy u <;> cases hfc : falsy c
    · cases hfind : db.posts.find? (fun p => p.id == pid) <;> simp [hfind]
    · simp
    · simp
    · simp
  · unfold update_comment
    cases hfu : falsy u <;> cases hfc : falsy c
    · cases hfind : db.comments.find?
        (fun c2 => c2.id == cid && c2.postId == pid) <;> simp [hfind]
    · simp
    · simp
    · simp
  · unfold like_post
    cases hfu : falsy u
    · cases hfind : db.posts.find? (fun p => p.id == pid)
      · simp [hfind]
      · rcases hany : db.likes.any
          (fun e => e.postId == pid && e.username == u.getD "") <;>
          simp [hfind, hany]
    · simp
  · unfold unlike_post
    cases hfu : falsy u
    · cases hfind : db.posts.find? (fun p => p.id == pid)
      · simp [hfind]
      · cases hfind2 : db.likes.find?
          (fun e => e.postId == pid && e.username == u.getD "") <;>
          simp [hfind, hfind2]
    · simp
  · exact beq_eq_false_iff_ne.mpr hs
  · unfold create_post
    rw [if_neg (by decide)]
  · unfold create_post
    rw [if_neg (by decide)]
    exact List.mem_cons_self _ _

/-- C4: deleting an existing post succeeds and removes the post together
with every comment row and like-edge row carrying its id; afterwards
get_post on it and get_comment on any comment id under it fail with
NotFound; delete_post of an absent id fails with NotFound and leaves the
store unchanged. -/
theorem C4_delete_post_cascade (ops : List Op) (p : Post) (pid2 : Nat)
    (hp : p ∈ (execOps initDB ops).posts)
    (habs : pid2 ∉ (execOps initDB ops).posts.map Post.id) :
    (delete_post (execOps initDB ops) p.id).1 = .ok () ∧
    (∀ q ∈ (delete_post (execOps initDB ops) p.id).2.posts, q.id ≠ p.id) ∧
    (∀ c2 ∈ (delete_post (execOps initDB ops) p.id).2.comments,
      c2.postId ≠ p.id) ∧
    (∀ e ∈ (delete_post (execOps initDB ops) p.id).2.likes, e.postId ≠ p.id) ∧
    get_post (delete_post (execOps initDB ops) p.id).2 p.id
      = (.error .notFound, (delete_post (execOps initDB ops) p.id).2) ∧
    (∀ cid : Nat, get_comment (delete_post (execOps initDB ops) p.id).2 p.id cid
      = (.error .notFound, (delete_post (execOps initDB ops) p.id).2)) ∧
    delete_post (execOps initDB ops) pid2
      = (.error .notFound, execOps initDB ops) := by
  have hsome : ((execOps initDB ops).posts.find?
      (fun q => q.id == p.id)).isSome = true :=
    List.find?_isSome.mpr ⟨p, hp, by simp⟩
  obtain ⟨p0, hp0⟩ := Option.isSome_iff_exists.mp hsome
  have hstep : delete_post (execOps initDB ops) p.id
      = (.ok (), { execOps initDB ops with
          posts := (execOps initDB ops).posts.filter (fun q => !(q.id == p.id)),
          comments := (execOps initDB ops).comments.filter
            (fun c2 => !(c2.postId == p.id)),
          likes := (execOps initDB ops).likes.filter
            (fun e => !(e.postId == p.id)) }) := by
    unfold delete_post
    rw [hp0]
  have hposts : ∀ q ∈ (delete_post (execOps initDB ops) p.id).2.posts,
      q.id ≠ p.id := by
    rw [hstep]
    intro q hq
    simpa using (List.mem_filter.mp hq).2
  have hcomments : ∀ c2 ∈ (delete_post (execOps initDB ops) p.id).2.comments,
      c2.postId ≠ p.id := by
    rw [hstep]
    intro c2 hc2
    simpa using (List.mem_filter.mp hc2).2
  refine ⟨by rw [hstep], hposts, hcomments, ?_, ?_, ?_, ?_⟩
  · rw [hstep]
    intro e he
    simpa using (List.mem_filter.mp he).2
  · unfold get_post
    rw [List.find?_eq_none.mpr fun q hq => by simpa using hposts q hq]
  · intro cid
    unfold get_comment
    rw [List.find?_eq_none.mpr fun c2 hc2 => ?_]
    simp only [Bool.and_eq_true, beq_iff_eq, not_and]
    exact fun _ => hcomments c2 hc2
  · unfold delete_post
    rw [List.find?_eq_none.mpr fun q hq hbe => ?_]
    exact habs (List.mem_map.mpr ⟨q, hq, by simpa using hbe⟩)

/-- Witness for C4: deleting a post that has one like and one comment. -/
theorem C4_witness :
    (⟨0, "a", "hi", "t", "t", 1, 1⟩ : Post) ∈
      (execOps initDB [Op.createPost (some "a") (some "hi") "t",
        Op.likePost 0 (some "b"),
        Op.createComment 0 (some "c") (some "d") "t"]).posts ∧
    (5 : Nat) ∉ (execOps initDB [Op.createPost (some "a") (some "hi") "t",
        Op.likePost 0 (some "b"),
        Op.createComment 0 (some "c") (some "d") "t"]).posts.map Post.id ∧
    (delete_post (execOps initDB [Op.createPost (some "a") (some "hi") "t",
        Op.likePost 0 (some "b"),
        Op.createComment 0 (some "c") (some "d") "t"])
      (⟨0, "a", "hi", "t", "t", 1, 1⟩ : Post).id).1 = .ok () :=
  ⟨by decide, by decide,
    (C4_delete_post_cascade [Op.createPost (some "a") (some "hi") "t",
        Op.likePost 0 (some "b"),
        Op.createComment 0 (some "c") (some "d") "t"]
      ⟨0, "a", "hi", "t", "t", 1, 1⟩ 5 (by decide) (by decide)).1⟩

/-- C7: updating an existing post with truthy fields returns the post with
only username, content and updatedAt replaced (id, createdAt and both
counters kept), that row replaces the old one, every other post is
untouched, and the comment and like tables are unchanged. -/
theorem C7_update_post_frame (ops : List Op) (p : Post) (u c now : String)
    (hp : p ∈ (execOps initDB ops).posts) (hu : u ≠ "") (hc : c ≠ "") :
    (update_post (execOps initDB ops) p.id (some u) (some c) now).1
      = .ok (some { p with username := u, content := c, updatedAt := now }) ∧
    { p with username := u, content := c, updatedAt := now }
      ∈ (update_post (execOps initDB ops) p.id (some u) (some c) now).2.posts ∧
    (∀ q ∈ (execOps initDB ops).posts, q.id ≠ p.id →
      q ∈ (update_post (execOps initDB ops) p.id (some u) (some c) now).2.posts) ∧
    (∀ q ∈ (update_post (execOps initDB ops) p.id (some u) (some c) now).2.posts,
      q = { p with username := u, content := c, updatedAt := now }
        ∨ q ∈ (execOps initDB ops).posts) ∧
    (update_post (execOps initDB ops) p.id (some u) (some c) now).2.comments
      = (execOps initDB ops).comments ∧
    (update_post (execOps initDB ops) p.id (some u) (some c) now).2.likes
      = (execOps initDB ops).likes := by
  have hinv := inv_execOps initDB ops inv_initDB
  have hfind := find?_key (execOps initDB ops).posts Post.id p.id
    hinv.keys.1 p hp rfl
  have hstep : update_post (execOps initDB ops) p.id (some u) (some c) now
      = (.ok (((execOps initDB ops).posts.map (fun q =>
            if q.id = p.id then
              { q with username := u, content := c, updatedAt := now }
            else q)).find? (fun q => q.id == p.id)),
         { execOps initDB ops with posts :=
            ((execOps initDB ops).posts.map (fun q =>
              if q.id = p.id then
                { q with username := u, content := c, updatedAt := now }
              else q)) }) := by
    unfold update_post
    rw [if_neg (by simp [falsy, hu, hc])]
    simp only [Option.getD_some]
    rw [hfind]
  have hid : ∀ q : Post,
      (if q.id = p.id then
        ({ q with username := u, content := c, updatedAt := now } : Post)
      else q).id = q.id := by
    intro q
    split <;> rfl
  have hnodup2 : (((execOps initDB ops).posts.map (fun q =>
      if q.id = p.id then
        { q with username := u, content := c, updatedAt := now }
      else q)).map Post.id).Nodup := by
    rw [map_key_map _ _ _ fun a _ => hid a]
    exact hinv.keys.1
  have hfp : (if p.id = p.id then
      ({ p with username := u, content := c, updatedAt := now } : Post)
      else p) = { p with username := u, content := c, updatedAt := now } :=
    if_pos rfl
  have hmapfind : ((execOps initDB ops).posts.map (fun q =>
      if q.id = p.id then
        { q with username := u, content := c, updatedAt := now }
      else q)).find? (fun q => q.id == p.id)
      = some { p with username := u, content := c, updatedAt := now } := by
    rw [← hfp]
    exact find?_key _ Post.id p.id hnodup2 _
      (List.mem_map_of_mem _ hp) (by rw [hfp])
  rw [hstep]
  dsimp only
  refine ⟨by rw [hmapfind], ?_, ?_, ?_, rfl, rfl⟩
  · rw [← hfp]
    exact List.mem_map_of_mem _ hp
  · intro q hq hne
    exact List.mem_map.mpr ⟨q, hq, if_neg hne⟩
  · intro q hq
    obtain ⟨q0, hq0, rfl⟩ := List.mem_map.mp hq
    by_cases hcase : q0.id = p.id
    · left
      have : q0 = p := List.inj_on_of_nodup_map hinv.keys.1 hq0 hp hcase
      rw [this, hfp]
    · right
      rw [if_neg hcase]
      exact hq0

/-- Witness for C7: updating the only post of a one-post store. -/
theorem C7_witness :
    (⟨0, "a", "hi", "t", "t", 0, 0⟩ : Post) ∈
      (execOps initDB [Op.createPost (some "a") (some "hi") "t"]).posts ∧
    "x" ≠ "" ∧ "y" ≠ "" ∧
    (update_post (execOps initDB [Op.createPost (some "a") (some "hi") "t"])
        (⟨0, "a", "hi", "t", "t", 0, 0⟩ : Post).id (some "x") (some "y") "s").1
      = .ok (some { (⟨0, "a", "hi", "t", "t", 0, 0⟩ : Post) with
          username := "x", content := "y", updatedAt := "s" }) :=
  ⟨by decide, by decide, by decide,
    (C7_update_post_frame [Op.createPost (some "a") (some "hi") "t"]
      ⟨0, "a", "hi", "t", "t", 0, 0⟩ "x" "y" "s"
      (by decide) (by decide) (by decide)).1⟩

/-- A like request for a pair whose edge already exists hits the duplicate
primary key, the IntegrityError is swallowed, and the store is returned
unchanged with status 201. -/
theorem like_post_noop_of_edge (db : DB) (pid : Nat) (u : String) (hu : u ≠ "")
    (hpost : ∃ q ∈ db.posts, q.id = pid)
    (hedge : ∃ e ∈ db.likes, e.postId = pid ∧ e.username = u) :
    like_post db pid (some u) = (.ok (), db) := by
  unfold like_post
  rw [if_neg (by simp [falsy, hu])]
  obtain ⟨q, hq, hqid⟩ := hpost
  have hsome : (db.posts.find? (fun p => p.id == pid)).isSome = true :=
    List.find?_isSome.mpr ⟨q, hq, by simp [hqid]⟩
  obtain ⟨q0, hq0⟩ := Option.isSome_iff_exists.mp hsome
  rw [hq0]
  simp only [Option.getD_some]
  obtain ⟨e, he, he1, he2⟩ := hedge
  rw [if_pos (List.any_eq_true.mpr ⟨e, he, by simp [he1, he2]⟩)]

/-- A like request for a pair with no existing edge inserts the edge and
increments the post's `likes` counter. -/
theorem like_post_insert (db : DB) (p : Post) (u : String) (hu : u ≠ "")
    (hp : p ∈ db.posts) (hnd : (db.posts.map Post.id).Nodup)
    (hno : ∀ e ∈ db.likes, ¬(e.postId = p.id ∧ e.username = u)) :
    like_post db p.id (some u)
      = (.ok (), { db with
          likes := ⟨p.id, u⟩ :: db.likes,
          posts := (db.posts.map (fun q =>
            if q.id = p.id then { q with likes := q.likes + 1 } else q)) }) := by
  unfold like_post
  rw [if_neg (by simp [falsy, hu])]
  simp only [Option.getD_some]
  rw [find?_key db.posts Post.id p.id hnd p hp rfl]
  have hany : ¬(db.likes.any
      (fun e => e.postId == p.id && e.username == u) = true) := by
    intro hcon
    obtain ⟨e, he, hbe⟩ := List.any_eq_true.mp hcon
    simp only [Bool.and_eq_true, beq_iff_eq] at hbe
    exact hno e he ⟨hbe.1, hbe.2⟩
  rw [if_neg hany]

/-- C2 (amended): on a reachable store, for an existing post and a non-empty
username with no like-edge yet for that pair, calling like_post twice in
succession leaves exactly one like-edge keyed with the pair and leaves the
post's `likes` counter exactly 1 greater than before the first call; the
second call succeeds as a silent no-op (it returns 201 and leaves the store
exactly as after the first call). -/
theorem C2_like_twice_idempotent (ops : List Op) (p : Post) (u : String)
    (hp : p ∈ (execOps initDB ops).posts) (hu : u ≠ "")
    (hno : ∀ e ∈ (execOps initDB ops).likes,
      ¬(e.postId = p.id ∧ e.username = u)) :
    (like_post (like_post (execOps initDB ops) p.id (some u)).2 p.id
      (some u)).1 = .ok () ∧
    (like_post (like_post (execOps initDB ops) p.id (some u)).2 p.id
      (some u)).2 = (like_post (execOps initDB ops) p.id (some u)).2 ∧
    ((like_post (like_post (execOps initDB ops) p.id (some u)).2 p.id
        (some u)).2.likes.filter
        (fun e => e.postId == p.id && e.username == u)).length = 1 ∧
    ∀ q ∈ (like_post (like_post (execOps initDB ops) p.id (some u)).2 p.id
        (some u)).2.posts,
      q.id = p.id → q.likes = p.likes + 1 := by
  have hinv := inv_execOps initDB ops inv_initDB
  have hstep1 := like_post_insert (execOps initDB ops) p u hu hp hinv.keys.1 hno
  rw [hstep1]
  dsimp only
  have hstep2 : like_post { execOps initDB ops with
      likes := ⟨p.id, u⟩ :: (execOps initDB ops).likes,
      posts := ((execOps initDB ops).posts.map (fun q =>
        if q.id = p.id then { q with likes := q.likes + 1 } else q)) } p.id
      (some u)
      = (.ok (), { execOps initDB ops with
          likes := ⟨p.id, u⟩ :: (execOps initDB ops).likes,
          posts := ((execOps initDB ops).posts.map (fun q =>
            if q.id = p.id then { q with likes := q.likes + 1 } else q)) }) := by
    apply like_post_noop_of_edge _ _ _ hu
    · refine ⟨if p.id = p.id then { p with likes := p.likes + 1 } else p,
        List.mem_map_of_mem _ hp, ?_⟩
      rw [if_pos rfl]
    · exact ⟨⟨p.id, u⟩, List.mem_cons_self _ _, rfl, rfl⟩
  rw [hstep2]
  dsimp only
  refine ⟨rfl, rfl, ?_, ?_⟩
  · rw [List.filter_cons]
    rw [if_pos (by simp)]
    have hnil : (execOps initDB ops).likes.filter
        (fun e => e.postId == p.id && e.username == u) = [] := by
      refine List.filter_eq_nil_iff.mpr fun e he hbe => ?_
      simp only [Bool.and_eq_true, beq_iff_eq] at hbe
      exact hno e he ⟨hbe.1, hbe.2⟩
    rw [List.length_cons, hnil]
    rfl
  · intro q hq hqid
    obtain ⟨q0, hq0, rfl⟩ := List.mem_map.mp hq
    by_cases hcase : q0.id = p.id
    · have hq0p : q0 = p := List.inj_on_of_nodup_map hinv.keys.1 hq0 hp hcase
      subst hq0p
      rw [if_pos hcase]
    · rw [if_neg hcase] at hqid
      exact absurd hqid hcase

/-- C2 counterexample: on the reachable store where user "b" already likes
post 0 (whose `likes` counter is 1), performing like_post twice more leaves
the counter at 1, not at 1 + 1 — the claim fails without the precondition
that no like-edge for the pair exists yet. -/
theorem C2_counterexample :
    (⟨0, "a", "hi", "t", "t", 1, 0⟩ : Post) ∈
      (execOps initDB [Op.createPost (some "a") (some "hi") "t",
        Op.likePost 0 (some "b")]).posts ∧
    "b" ≠ "" ∧
    ∀ q ∈ (like_post (like_post (execOps initDB
        [Op.createPost (some "a") (some "hi") "t", Op.likePost 0 (some "b")])
        (⟨0, "a", "hi", "t", "t", 1, 0⟩ : Post).id (some "b")).2
        (⟨0, "a", "hi", "t", "t", 1, 0⟩ : Post).id (some "b")).2.posts,
      q.id = (⟨0, "a", "hi", "t", "t", 1, 0⟩ : Post).id →
        ¬(q.likes = (⟨0, "a", "hi", "t", "t", 1, 0⟩ : Post).likes + 1) := by
  decide

/-- Witness for C2 on a fresh one-post store: liking twice as "b" yields
exactly one edge and a counter of exactly one more. -/
theorem C2_witness :
    (⟨0, "a", "hi", "t", "t", 0, 0⟩ : Post) ∈
      (execOps initDB [Op.createPost (some "a") (some "hi") "t"]).posts ∧
    "b" ≠ "" ∧
    (∀ e ∈ (execOps initDB [Op.createPost (some "a") (some "hi") "t"]).likes,
      ¬(e.postId = (⟨0, "a", "hi", "t", "t", 0, 0⟩ : Post).id ∧
        e.username = "b")) ∧
    ((like_post (like_post (execOps initDB
        [Op.createPost (some "a") (some "hi") "t"])
        (⟨0, "a", "hi", "t", "t", 0, 0⟩ : Post).id (some "b")).2
        (⟨0, "a", "hi", "t", "t", 0, 0⟩ : Post).id (some "b")).1 = .ok () ∧
     (like_post (like_post (execOps initDB
        [Op.createPost (some "a") (some "hi") "t"])
        (⟨0, "a", "hi", "t", "t", 0, 0⟩ : Post).id (some "b")).2
        (⟨0, "a", "hi", "t", "t", 0, 0⟩ : Post).id (some "b")).2
       = (like_post (execOps initDB [Op.createPost (some "a") (some "hi") "t"])
          (⟨0, "a", "hi", "t", "t", 0, 0⟩ : Post).id (some "b")).2 ∧
     ((like_post (like_post (execOps initDB
        [Op.createPost (some "a") (some "hi") "t"])
        (⟨0, "a", "hi", "t", "t", 0, 0⟩ : Post).id (some "b")).2
        (⟨0, "a", "hi", "t", "t", 0, 0⟩ : Post).id (some "b")).2.likes.filter
        (fun e => e.postId == (⟨0, "a", "hi", "t", "t", 0, 0⟩ : Post).id &&
          e.username == "b")).length = 1 ∧
     ∀ q ∈ (like_post (like_post (execOps initDB
        [Op.createPost (some "a") (some "hi") "t"])
        (⟨0, "a", "hi", "t", "t", 0, 0⟩ : Post).id (some "b")).2
        (⟨0, "a", "hi", "t", "t", 0, 0⟩ : Post).id (some "b")).2.posts,
      q.id = (⟨0, "a", "hi", "t", "t", 0, 0⟩ : Post).id →
        q.likes = (⟨0, "a", "hi", "t", "t", 0, 0⟩ : Post).likes + 1) :=
  ⟨by decide, by decide, by decide,
    C2_like_twice_idempotent [Op.createPost (some "a") (some "hi") "t"]
      ⟨0, "a", "hi", "t", "t", 0, 0⟩ "b" (by decide) (by decide) (by decide)⟩

end SnsApi
